import Mathlib

/-!
Verification of the cmdb_repo repository-cataloguing system.

The definitions below are a shallow embedding of the Python sources:
`scanner_module/scanner.py`, `scanner_module/db_connector.py` and
`query_module/query_engine.py`.  Effectful steps (git clone, filesystem
walks, manifest parsing, SQL) are modelled by passing their outcomes as
explicit values; exceptions are modelled with `Except`/outcome types.
-/

namespace Cmdb

/-! ## Python string primitives -/

/-- Characters treated as whitespace by Python's `str.strip()` and by the
`\s` class of the `re` module on `str` patterns (ASCII whitespace plus the
common Unicode space characters). -/
def isPySpace (c : Char) : Bool :=
  c == ' ' || c == '\t' || c == '\n' || c == '\x0b' || c == '\x0c' || c == '\r' ||
  c == '\x1c' || c == '\x1d' || c == '\x1e' || c == '\x1f' || c == '\x85' ||
  c == ' ' || c == ' ' || c == ' ' || c == ' ' || c == ' ' ||
  c == ' ' || c == ' ' || c == ' ' || c == ' ' || c == ' ' ||
  c == ' ' || c == ' ' || c == ' ' || c == ' ' || c == ' ' ||
  c == ' ' || c == ' ' || c == '　'

/-- Python `str.strip()` on a character list. -/
def pyStrip (s : List Char) : List Char :=
  ((s.dropWhile isPySpace).reverse.dropWhile isPySpace).reverse

/-- Python `str.rstrip('/')` on a character list. -/
def pyRstripSlash (s : List Char) : List Char :=
  (s.reverse.dropWhile (· == '/')).reverse

/-- ASCII uppercase test, `c in 'A'..'Z'` (the uppercase letters relevant to
the catalog labels and owner names considered in the claims). -/
def isUp (c : Char) : Bool :=
  c == 'A' || c == 'B' || c == 'C' || c == 'D' || c == 'E' || c == 'F' || c == 'G' ||
  c == 'H' || c == 'I' || c == 'J' || c == 'K' || c == 'L' || c == 'M' || c == 'N' ||
  c == 'O' || c == 'P' || c == 'Q' || c == 'R' || c == 'S' || c == 'T' || c == 'U' ||
  c == 'V' || c == 'W' || c == 'X' || c == 'Y' || c == 'Z'

/-- Lowercasing of one character; models Python `str.lower()` on the ASCII
range (the only range exercised by the catalog labels and the claims). -/
def lowerChar (c : Char) : Char :=
  if c == 'A' then 'a' else if c == 'B' then 'b' else if c == 'C' then 'c' else
  if c == 'D' then 'd' else if c == 'E' then 'e' else if c == 'F' then 'f' else
  if c == 'G' then 'g' else if c == 'H' then 'h' else if c == 'I' then 'i' else
  if c == 'J' then 'j' else if c == 'K' then 'k' else if c == 'L' then 'l' else
  if c == 'M' then 'm' else if c == 'N' then 'n' else if c == 'O' then 'o' else
  if c == 'P' then 'p' else if c == 'Q' then 'q' else if c == 'R' then 'r' else
  if c == 'S' then 's' else if c == 'T' then 't' else if c == 'U' then 'u' else
  if c == 'V' then 'v' else if c == 'W' then 'w' else if c == 'X' then 'x' else
  if c == 'Y' then 'y' else if c == 'Z' then 'z' else c

/-- Python `str.lower()` on a whole string. -/
def pyLower (s : String) : String :=
  ⟨s.data.map lowerChar⟩

/-- `hasUpper s` holds when `s` contains an (ASCII) uppercase letter. -/
def hasUpper (s : String) : Bool :=
  s.data.any isUp

/-- Boolean prefix test on character lists. -/
def leadsWith : List Char → List Char → Bool
  | [], _ => true
  | _ :: _, [] => false
  | a :: as, b :: bs => a == b && leadsWith as bs

/-- Substring occurrence test on character lists (`needle` occurs in the list). -/
def hasSubList (needle : List Char) : List Char → Bool
  | [] => leadsWith needle []
  | c :: cs => leadsWith needle (c :: cs) || hasSubList needle cs

/-- Python `needle in hay` substring test on strings. -/
def strHasSub (hay needle : String) : Bool :=
  hasSubList needle.data hay.data

/-! ## Pattern catalog and matching (`scanner.py`) -/

/-- `fnmatch.fnmatch`-style glob matching for the patterns of the catalog,
which only use the `*` wildcard (none uses `?` or `[...]`).  First argument
is the pattern, second the candidate string. -/
def globMatch : List Char → List Char → Bool
  | [], [] => true
  | [], _ :: _ => false
  | '*' :: ps, [] => globMatch ps []
  | '*' :: ps, c :: cs => globMatch ps (c :: cs) || globMatch ('*' :: ps) cs
  | _ :: _, [] => false
  | p :: ps, c :: cs => p == c && globMatch ps cs
termination_by p s => (p.length, s.length)

/-- `RepositoryScanner.technology_patterns`: the file-pattern catalog, in
Python dict insertion order. -/
def technology_patterns : List (String × List String) :=
  [ ("Node.js", ["package.json", "package-lock.json", "yarn.lock", "node_modules"]),
    ("Python", ["requirements.txt", "setup.py", "pyproject.toml", "Pipfile",
                "poetry.lock", "conda.yaml", "environment.yml"]),
    ("Java", ["pom.xml", "build.gradle", "build.gradle.kts", "gradle.properties",
              "mvnw", "gradlew"]),
    ("PHP", ["composer.json", "composer.lock", "index.php"]),
    ("Ruby", ["Gemfile", "Gemfile.lock", ".ruby-version"]),
    ("Go", ["go.mod", "go.sum", "main.go"]),
    ("Rust", ["Cargo.toml", "Cargo.lock"]),
    ("C#", ["*.csproj", "*.sln", "packages.config", "project.json"]),
    ("Flutter/Dart", ["pubspec.yaml", "pubspec.lock"]),
    ("React", ["package.json"]),
    ("Angular", ["angular.json", "angular-cli.json"]),
    ("Vue.js", ["vue.config.js", "vue.config.ts"]),
    ("Docker", ["Dockerfile", "docker-compose.yml", "docker-compose.yaml", ".dockerignore"]),
    ("Kubernetes", ["deployment.yaml", "service.yaml", "ingress.yaml", "kustomization.yaml"]),
    ("Terraform", ["*.tf", "terraform.tfvars", ".terraform"]),
    ("Android", ["build.gradle", "AndroidManifest.xml"]),
    ("iOS", ["*.xcodeproj", "*.xcworkspace", "Podfile"]) ]

/-- `RepositoryScanner._matches_pattern`: wildcard patterns go through
`fnmatch`, literal patterns match by list membership or path suffix. -/
def matchesPattern (files : List String) (pat : String) : Bool :=
  if pat.data.any (· == '*') then
    files.any (fun f => globMatch pat.data f.data)
  else
    files.contains pat || files.any (fun f => f.endsWith pat)

/-- State of the root `package.json` of a cloned repository, as seen by
`_validate_technology`: missing, unreadable/malformed (opening or JSON
parsing raises), or parsed with the key lists of `dependencies` and
`devDependencies`. -/
inductive ManifestState where
  | absent : ManifestState
  | malformed : ManifestState
  | parsed (dependencies devDependencies : List String) : ManifestState
deriving DecidableEq

/-- `RepositoryScanner._validate_technology`.  The whole body runs under
`try`; a raising manifest read (`malformed`) lands in the `except` branch
which returns `True` (fail-open). -/
def validate_technology (technology : String) (manifest : ManifestState)
    (files : List String) : Bool :=
  if technology == "React" then
    match manifest with
    | .absent => false
    | .malformed => true
    | .parsed deps devDeps => deps.contains "react" || devDeps.contains "react"
  else if technology == "Android" then
    files.any (fun f => strHasSub f "AndroidManifest.xml")
  else if technology == "C#" then
    files.any (fun f => f.endsWith ".cs")
  else
    true

/-- One iteration of the technology loop of
`scan_directory_for_technologies`: on the first matching pattern of the
entry (the `break`), append the technology if it is new and validates. -/
def classifyStep (files : List String) (manifest : ManifestState)
    (acc : List String) (entry : String × List String) : List String :=
  match entry.2.find? (fun p => matchesPattern files p) with
  | some _ =>
      if acc.contains entry.1 then acc
      else if validate_technology entry.1 manifest files then acc ++ [entry.1]
      else acc
  | none => acc

/-- The classification loop of `scan_directory_for_technologies` over the
already-walked file inventory. -/
def classify (files : List String) (manifest : ManifestState) : List String :=
  technology_patterns.foldl (classifyStep files manifest) []

/-- `RepositoryScanner.scan_directory_for_technologies`: the tree walk may
raise (outcome passed as `Except`); any exception inside the `try` block is
caught and yields the empty technology list. -/
def scan_directory_for_technologies (walk : Except String (List String))
    (manifest : ManifestState) : List String :=
  match walk with
  | .error _ => []
  | .ok files => classify files manifest

/-! ## URL parser (`extract_repo_info_from_url`)

The four regular expressions of the source are compiled by hand into
deterministic parsers.  Alternation order, greedy/lazy quantifiers and the
optional `.git` / trailing-slash groups are reproduced faithfully; comments
on each definition name the regex fragment it implements. -/

/-- Literal prefix matching: `dropPre p s` returns the rest of `s` after the
prefix `p`, or `none` when `p` is not a prefix of `s`. -/
def dropPre : List Char → List Char → Option (List Char)
  | [], s => some s
  | _ :: _, [] => none
  | a :: as, b :: bs => if a == b then dropPre as bs else none

/-- Split at the first occurrence of `c`: chars before it and chars after. -/
def splitFirst (c : Char) : List Char → Option (List Char × List Char)
  | [] => none
  | a :: as =>
    if a == c then some ([], as)
    else
      match splitFirst c as with
      | some (l, r) => some (a :: l, r)
      | none => none

/-- The optional `/?` just before `$`: remove a single trailing slash. -/
def dropTrailSlash (s : List Char) : List Char :=
  match s.reverse with
  | '/' :: rest => rest.reverse
  | _ => s

/-- The optional non-capturing `(?:\.git)?` after the lazy repo group: the
lazy group takes the shortest value, so a single final `.git` is stripped
when something nonempty remains before it. -/
def stripGitTail (r : List Char) : List Char :=
  if 4 < r.length && leadsWith ".git".data (r.drop (r.length - 4)) then
    r.take (r.length - 4)
  else r

/-- The common tail `([^/]+)/([^/]+?)(?:\.git)?/?$` of all four URL regexes:
greedy first group up to the first slash, lazy second group, optional
`.git`, optional final slash, end of string. -/
def tailMatch (s : List Char) : Option (List Char × List Char) :=
  match splitFirst '/' s with
  | none => none
  | some (g1, rest) =>
    if g1 == [] then none
    else
      let r1 := dropTrailSlash rest
      if r1.any (· == '/') then none
      else if r1 == [] then none
      else some (g1, stripGitTail r1)

/-- Regex 1: `https?://(?:www\.)?(?:github|gitlab)\.com/([^/]+)/([^/]+?)(?:\.git)?/?$`. -/
def pat1 (s : List Char) : Option (List Char × List Char) :=
  (dropPre "http://".data s <|> dropPre "https://".data s).bind fun r =>
    (dropPre "www.github.com/".data r <|> dropPre "www.gitlab.com/".data r <|>
     dropPre "github.com/".data r <|> dropPre "gitlab.com/".data r).bind tailMatch

/-- Regex 2: `git@(?:github|gitlab)\.com:([^/]+)/([^/]+?)(?:\.git)?/?$`. -/
def pat2 (s : List Char) : Option (List Char × List Char) :=
  (dropPre "git@github.com:".data s <|> dropPre "git@gitlab.com:".data s).bind tailMatch

/-- Regex 3: `https?://[^/]+/([^/]+)/([^/]+?)(?:\.git)?/?$` — the greedy
host group runs to the first slash. -/
def pat3 (s : List Char) : Option (List Char × List Char) :=
  (dropPre "http://".data s <|> dropPre "https://".data s).bind fun r =>
    match splitFirst '/' r with
    | none => none
    | some (host, r2) => if host == [] then none else tailMatch r2

/-- Regex 4: `git@[^:]+:([^/]+)/([^/]+?)(?:\.git)?/?$` — the greedy host
group runs to the first colon. -/
def pat4 (s : List Char) : Option (List Char × List Char) :=
  (dropPre "git@".data s).bind fun r =>
    match splitFirst ':' r with
    | none => none
    | some (host, r2) => if host == [] then none else tailMatch r2

/-- The ordered `for pattern in patterns` loop: first regex that matches
wins. -/
def tryPatterns (s : List Char) : Option (List Char × List Char) :=
  pat1 s <|> pat2 s <|> pat3 s <|> pat4 s

/-- Characters allowed in a URL scheme by `urllib.parse`. -/
def isSchemeChar (c : Char) : Bool :=
  c.isAlpha || c.isDigit || c == '+' || c == '-' || c == '.'

/-- A valid scheme is nonempty, starts with a letter and uses scheme
characters only. -/
def validScheme : List Char → Bool
  | [] => false
  | c :: cs => c.isAlpha && cs.all isSchemeChar

/-- Everything before the first occurrence of `c`. -/
def takeUntil (c : Char) (s : List Char) : List Char :=
  s.takeWhile (· != c)

/-- The `.path` component of `urllib.parse.urlparse`: drop fragment and
query, strip a valid scheme at the first colon, and skip a `//netloc`
section up to the next slash. -/
def urlPath (u : List Char) : List Char :=
  let u1 := takeUntil '#' u
  let u2 := takeUntil '?' u1
  let u3 :=
    match splitFirst ':' u2 with
    | some (sch, rest) => if validScheme sch then rest else u2
    | none => u2
  if leadsWith "//".data u3 then
    let after := u3.drop 2
    after.drop (after.takeWhile (· != '/')).length
  else u3

/-- Python `str.split('/')` on a character list: boundary separators and
runs of separators produce empty parts, and the empty string yields one
empty part. -/
def splitOnChar (c : Char) : List Char → List (List Char)
  | [] => [[]]
  | a :: as =>
    let r := splitOnChar c as
    if a == c then [] :: r
    else
      match r with
      | [] => [[a]]
      | h :: t => (a :: h) :: t

/-- Python `str.replace('.git', '')`: remove every (non-overlapping,
left-to-right) occurrence of `.git`.  The fuel argument (the list length)
only makes the recursion structural. -/
def replaceGitAux : Nat → List Char → List Char
  | 0, l => l
  | _ + 1, [] => []
  | fuel + 1, a :: as =>
    if leadsWith ".git".data (a :: as) then replaceGitAux fuel (as.drop 3)
    else a :: replaceGitAux fuel as

/-- `s.replace('.git', '')` on a character list. -/
def replaceGit (l : List Char) : List Char :=
  replaceGitAux l.length l

/-- `RepositoryScanner.extract_repo_info_from_url`: strip surrounding
whitespace and trailing slashes, try the four regexes in order, else fall
back to the `urlparse` path split; total, never raises. -/
def extract_repo_info_from_url (url : String) : String × String :=
  let u : List Char := pyRstripSlash (pyStrip url.data)
  match tryPatterns u with
  | some pr => (⟨pr.1⟩, ⟨pr.2⟩)
  | none =>
    let path_parts := (splitOnChar '/' (urlPath u)).filter (fun p => p ≠ [])
    if 2 ≤ path_parts.length then
      (⟨path_parts.getD (path_parts.length - 2) []⟩,
       ⟨replaceGit (path_parts.getLastD [])⟩)
    else
      ("unknown", ⟨replaceGit ((splitOnChar '/' u).getLastD [])⟩)

/-! ## Scan orchestration (`clone_repository`, `scan_repository`) -/

/-- Outcome of the `subprocess.run` git-clone call: completion with an exit
code and stderr, a `TimeoutExpired`, or some other raised exception. -/
inductive CloneOutcome where
  | completed (returncode : Int) (stderr : String) : CloneOutcome
  | timedOut : CloneOutcome
  | raised (msg : String) : CloneOutcome

/-- `RepositoryScanner.clone_repository`: true exactly on exit code 0;
timeouts and unexpected exceptions are caught and yield false. -/
def clone_repository : CloneOutcome → Bool
  | .completed rc _ => rc == 0
  | .timedOut => false
  | .raised _ => false

/-- Outcome of `tempfile.mkdtemp` at the start of `scan_repository`. -/
inductive MkdirOutcome where
  | ok : MkdirOutcome
  | raised (msg : String) : MkdirOutcome

/-- Data gathered by the directory walk of
`_generate_explanation_for_unidentified`: file basenames seen (hidden
directories pruned) and the accumulated directory count. -/
structure CensusInput where
  fileNames : List String
  dirCount : Nat

/-- A repository record: the dict built by `scan_repository`, equally the
row persisted by `insert_repository` (the SQL `id` and timestamp columns
are not modelled). -/
structure RepoRow where
  url : String
  owner_name : String
  repo_name : String
  technologies : List String
  is_identified : Bool
  status : String
  ai_explanation : Option String
deriving DecidableEq

/-- The extension→technology suggestion table of
`_generate_explanation_for_unidentified`. -/
def extension_suggestions : List (String × String) :=
  [ ("py", "Python (considere añadir requirements.txt)"),
    ("js", "JavaScript (considere añadir package.json)"),
    ("java", "Java (considere añadir pom.xml o build.gradle)"),
    ("php", "PHP (considere añadir composer.json)"),
    ("rb", "Ruby (considere añadir Gemfile)"),
    ("go", "Go (considere añadir go.mod)"),
    ("rs", "Rust (considere añadir Cargo.toml)"),
    ("cs", "C# (considere añadir .csproj o .sln)"),
    ("cpp", "C++ (considere añadir CMakeLists.txt)"),
    ("c", "C (considere añadir Makefile)"),
    ("ts", "TypeScript (considere añadir package.json)"),
    ("dart", "Dart/Flutter (considere añadir pubspec.yaml)"),
    ("kt", "Kotlin (considere añadir build.gradle)"),
    ("swift", "Swift (considere añadir Package.swift)"),
    ("scala", "Scala (considere añadir build.sbt)") ]

/-- `file.split('.')[-1].lower()` for files containing a dot. -/
def extOf (f : String) : Option String :=
  if f.data.any (· == '.') then some (pyLower ((f.splitOn ".").getLastD "")) else none

/-- The set of lowercased extensions of the non-hidden files, in discovery
order (the Python code collects them in a `set`, whose iteration order is
unspecified; discovery order is one faithful choice and no claim depends on
it). -/
def censusExts (names : List String) : List String :=
  names.foldl
    (fun acc f =>
      if f.startsWith "." then acc
      else
        match extOf f with
        | some e => if acc.contains e then acc else acc ++ [e]
        | none => acc) []

/-- Number of non-hidden files seen by the census walk. -/
def censusFileCount (names : List String) : Nat :=
  (names.filter (fun f => !(f.startsWith "."))).length

/-- Stable ascending insertion of a string into a sorted list (used for
`sorted(file_extensions)`; the elements are pairwise distinct). -/
def insertStr (x : String) : List String → List String
  | [] => [x]
  | y :: ys => if x < y then x :: y :: ys else y :: insertStr x ys

/-- `sorted` on a list of distinct strings. -/
def sortStrs : List String → List String
  | [] => []
  | x :: xs => insertStr x (sortStrs xs)

/-- `RepositoryScanner._generate_explanation_for_unidentified`: its own
directory walk may raise, in which case the `except` branch returns a short
message embedding the exception text; otherwise the deterministic template
is filled in. -/
def generate_explanation_for_unidentified (census : Except String CensusInput)
    (url : String) : String :=
  match census with
  | .error e => "No se pudo generar explicación detallada. Error: " ++ e
  | .ok c =>
    let exts := censusExts c.fileNames
    let sortedJoined :=
      if exts.isEmpty then "No se encontraron extensiones específicas"
      else String.intercalate ", " (sortStrs exts)
    let body :=
      "\nANÁLISIS DEL REPOSITORIO NO IDENTIFICADO:\n\nRepositorio: " ++ url ++
      "\nArchivos encontrados: " ++ toString (censusFileCount c.fileNames) ++
      "\nDirectorios encontrados: " ++ toString c.dirCount ++
      "\n\nEXTENSIONES DE ARCHIVO DETECTADAS:\n" ++ sortedJoined ++
      "\n\nPOSIBLES RAZONES PARA NO IDENTIFICACIÓN:\n" ++
      "1. El repositorio podría contener código en un lenguaje no cubierto por nuestros patrones actuales\n" ++
      "2. Podría ser un proyecto de configuración, documentación o datos sin archivos de tecnología estándar\n" ++
      "3. Los archivos de configuración podrían estar en ubicaciones no estándar\n" ++
      "4. Podría ser un repositorio experimental o de pruebas\n\n" ++
      "RECOMENDACIONES PARA EL DESARROLLADOR:\n" ++
      "- Verificar si el repositorio contiene archivos como package.json, requirements.txt, pom.xml, etc.\n" ++
      "- Revisar si hay archivos de configuración en subdirectorios\n" ++
      "- Considerar añadir archivos de configuración estándar para su tecnología\n" ++
      "- Si es un tipo de proyecto nuevo, considerar añadir el patrón correspondiente al sistema\n\n" ++
      "EXTENSIONES DETECTADAS QUE PODRÍAN INDICAR TECNOLOGÍAS:\n"
    exts.foldl
      (fun acc e =>
        match extension_suggestions.lookup e with
        | some s => acc ++ "- " ++ s ++ "\n"
        | none => acc) body

/-- The `clone_failed` explanation text of `scan_repository`. -/
def cloneFailMsg (url : String) : String :=
  "No se pudo clonar el repositorio desde " ++ url ++
  ". Verifique que la URL sea correcta y que el repositorio sea público o tenga los permisos necesarios."

/-- The `status=error` explanation text of `scan_repository`. -/
def errorMsg (e : String) : String :=
  "Error durante el análisis del repositorio: " ++ e

/-- `RepositoryScanner.scan_repository`.  Inputs carry the outcomes of the
effectful steps: scratch-directory creation, the clone, the classification
tree walk, the root-manifest state, the census walk of the explanation
generator, and whether `shutil.rmtree` in the `finally` block succeeds.
Returns the record together with a flag telling whether the scratch
directory still exists after the function returns. -/
def scan_repository (url : String) (mk : MkdirOutcome) (clone : CloneOutcome)
    (walk : Except String (List String)) (manifest : ManifestState)
    (census : Except String CensusInput) (rmtreeOk : Bool) : RepoRow × Bool :=
  let info := extract_repo_info_from_url url
  let init : RepoRow :=
    { url := url, owner_name := info.1, repo_name := info.2, technologies := [],
      is_identified := false, status := "error", ai_explanation := none }
  match mk with
  | .raised msg =>
      -- `temp_dir` is still `None`: the `except` branch fills in the error
      -- record and the `finally` block has no directory to remove.
      ({ init with status := "error", ai_explanation := some (errorMsg msg) }, false)
  | .ok =>
      let record :=
        if clone_repository clone = false then
          { init with status := "clone_failed", ai_explanation := some (cloneFailMsg url) }
        else
          let techs := scan_directory_for_technologies walk manifest
          let r := { init with
                     technologies := techs,
                     is_identified := decide (0 < techs.length),
                     status := "analyzed" }
          if r.is_identified then r
          else { r with ai_explanation := some (generate_explanation_for_unidentified census url) }
      -- the `finally` block: the directory exists afterwards only when the
      -- `shutil.rmtree` call itself raised (which the code only logs).
      (record, !rmtreeOk)

/-! ## Persistence (`db_connector.py`) -/

/-- `DatabaseConnector.insert_repository`: the SQL
`INSERT ... ON CONFLICT (url) DO UPDATE SET` replaces every stored field
(owner, name, technologies, is_identified, status, ai_explanation) of the
row with that URL, or appends a fresh row.  `insertOk = false` models the
`except` path (connection or write failure): it returns `None` and leaves
the store unchanged.  Returned ids are positive, as SQL `SERIAL` ids are. -/
def insert_repository (db : List RepoRow) (row : RepoRow) (insertOk : Bool) :
    Option Nat × List RepoRow :=
  if insertOk then
    if db.any (fun r => r.url == row.url) then
      (some 1, db.map (fun r => if r.url == row.url then row else r))
    else (some (db.length + 1), db ++ [row])
  else (none, db)

/-- `DatabaseConnector.get_repository_by_url`: `WHERE url = %s`. -/
def get_repository_by_url (db : List RepoRow) (url : String) : Option RepoRow :=
  db.find? (fun r => r.url == url)

/-- `DatabaseConnector.get_repositories_by_owner`: exact, case-sensitive
`WHERE owner_name = %s` (the `ORDER BY repo_name` affects presentation
order only and is not modelled). -/
def get_repositories_by_owner (db : List RepoRow) (owner : String) : List RepoRow :=
  db.filter (fun r => r.owner_name == owner)

/-- `DatabaseConnector.get_repositories_by_technology`: exact, case-sensitive
array membership `WHERE %s = ANY(technologies)` (`ORDER BY` not modelled). -/
def get_repositories_by_technology (db : List RepoRow) (tech : String) : List RepoRow :=
  db.filter (fun r => r.technologies.contains tech)

/-- `DatabaseConnector.get_all_repositories` with no limit:
`ORDER BY created_at DESC`, i.e. reverse insertion order (updates keep the
original `created_at`, so store order is creation order). -/
def get_all_repositories (db : List RepoRow) : List RepoRow :=
  db.reverse

/-- `DatabaseConnector.get_unidentified_repositories`:
`WHERE is_identified = FALSE ORDER BY created_at DESC`. -/
def get_unidentified_repositories (db : List RepoRow) : List RepoRow :=
  (db.filter (fun r => r.is_identified == false)).reverse

/-! ## Batch scanning -/

/-- The per-scan collaborator outcomes consumed by one
`scan_and_store_repository` call. -/
structure ScanInputs where
  mkd : MkdirOutcome
  clone : CloneOutcome
  walk : Except String (List String)
  manifest : ManifestState
  census : Except String CensusInput
  rmtreeOk : Bool
  insertOk : Bool

/-- `RepositoryScanner.scan_and_store_repository`: scan, then persist; true
exactly when the insert returned an id (ids are positive, so Python's
`if repo_id:` truthiness test is `isSome`). -/
def scan_and_store_repository (inp : ScanInputs) (url : String) (db : List RepoRow) :
    Bool × List RepoRow :=
  let record := (scan_repository url inp.mkd inp.clone inp.walk inp.manifest
                  inp.census inp.rmtreeOk).1
  match insert_repository db record inp.insertOk with
  | (some _, db2) => (true, db2)
  | (none, db2) => (false, db2)

/-- One entry of the result dict of `batch_scan_repositories`. -/
structure BatchEntry where
  success : Bool
  scanned_at : Nat
  total : Nat
deriving DecidableEq

/-- Python dict assignment `results[url] = v`: replace in place or append. -/
def dictInsert (m : List (String × BatchEntry)) (k : String) (v : BatchEntry) :
    List (String × BatchEntry) :=
  if m.any (fun p => p.1 == k) then m.map (fun p => if p.1 == k then (k, v) else p)
  else m ++ [(k, v)]

/-- The `for i, url in enumerate(urls, 1)` loop of
`batch_scan_repositories`, threading the store through the sequential
scans.  `env` maps each URL to its collaborator outcomes. -/
def batchGo (env : String → ScanInputs) (total : Nat) :
    Nat → List String → List (String × BatchEntry) → List RepoRow →
    List (String × BatchEntry) × List RepoRow
  | _, [], acc, db => (acc, db)
  | i, u :: rest, acc, db =>
    let r := scan_and_store_repository (env u) u db
    batchGo env total (i + 1) rest
      (dictInsert acc u { success := r.1, scanned_at := i, total := total }) r.2

/-- `RepositoryScanner.batch_scan_repositories`. -/
def batch_scan_repositories (env : String → ScanInputs) (urls : List String)
    (db : List RepoRow) : List (String × BatchEntry) × List RepoRow :=
  batchGo env urls.length 1 urls [] db

/-! ## Query engine (`query_engine.py`) -/

/-- The heterogeneous `results` payload of a query answer. -/
inductive QueryValue where
  | repoRows (rows : List RepoRow) : QueryValue
  | stats (total identified : Nat) (technologies : List (String × Nat)) : QueryValue
  | scalar (n : Nat) : QueryValue
deriving DecidableEq

/-- The typed result dict of the query engine; `results`/`count` are
`none` when the Python dict omits those keys. -/
structure QueryResult where
  success : Bool
  explanation : String
  results : Option QueryValue
  count : Option Nat
deriving DecidableEq

/-- The `tech_counts` dict of `_get_general_statistics`: insertion-ordered
occurrence counting. -/
def countTechs (techs : List String) : List (String × Nat) :=
  techs.foldl
    (fun acc t =>
      if acc.any (fun p => p.1 == t) then
        acc.map (fun p => if p.1 == t then (p.1, p.2 + 1) else p)
      else acc ++ [(t, 1)]) []

/-- Stable descending insertion by count (earlier elements stay before
later elements of equal count). -/
def insertDesc (x : String × Nat) : List (String × Nat) → List (String × Nat)
  | [] => [x]
  | y :: ys => if y.2 ≤ x.2 then x :: y :: ys else y :: insertDesc x ys

/-- `sorted(tech_counts.items(), key=count, reverse=True)`: Python's sort is
stable, so ties keep first-seen order. -/
def sortCountsDesc : List (String × Nat) → List (String × Nat)
  | [] => []
  | x :: xs => insertDesc x (sortCountsDesc xs)

/-- The `all_techs` accumulation of `_get_general_statistics`, iterating the
records in `get_all_repositories` order. -/
def allTechs (db : List RepoRow) : List String :=
  (get_all_repositories db).foldl (fun acc r => acc ++ r.technologies) []

/-- The top-5 technologies of `_get_general_statistics`. -/
def topTechsOf (db : List RepoRow) : List (String × Nat) :=
  (sortCountsDesc (countTechs (allTechs db))).take 5

/-- The `{identified/total*100:.1f}` percentage text, modelled by exact
rational rounding to one decimal with ties-to-even (the rounding of the
float formatting). -/
def formatPct (identified total : Nat) : String :=
  let t := identified * 1000
  let q := t / total
  let r := t % total
  let tenths :=
    if total < 2 * r then q + 1
    else if 2 * r < total then q
    else if q % 2 == 0 then q else q + 1
  toString (tenths / 10) ++ "." ++ toString (tenths % 10)

/-- The multi-line statistics report text. -/
def statsText (total identified : Nat) (top : List (String × Nat)) : String :=
  "\n📊 Estadísticas del CMDB:\n• Total de repositorios: " ++ toString total ++
  "\n• Repositorios identificados: " ++ toString identified ++
  " (" ++ formatPct identified total ++ "%)" ++
  "\n• Repositorios no identificados: " ++ toString (total - identified) ++
  "\n\nTecnologías más populares:" ++
  top.foldl (fun acc p => acc ++ "\n• " ++ p.1 ++ ": " ++ toString p.2 ++ " repositorio(s)") ""

/-- `NaturalLanguageQueryEngine._get_general_statistics`: empty store short
circuits to the "no repositories" answer before any percentage is computed;
otherwise totals, identified count, percentage and top-5 technologies. -/
def getGeneralStatistics (db : List RepoRow) : QueryResult :=
  let all_repos := get_all_repositories db
  if all_repos.isEmpty then
    { success := false, explanation := "No hay repositorios en la base de datos",
      results := none, count := none }
  else
    let total := all_repos.length
    let identified := (all_repos.filter (fun r => r.is_identified)).length
    let top := topTechsOf db
    { success := true, explanation := statsText total identified top,
      results := some (.stats total identified top), count := some total }

/-- `NaturalLanguageQueryEngine._get_unidentified_repositories`: both
branches succeed; the empty branch reports that everything is identified. -/
def getUnidentifiedRepositories (db : List RepoRow) : QueryResult :=
  let unidentified := get_unidentified_repositories db
  if unidentified.length != 0 then
    { success := true,
      explanation := "Hay " ++ toString unidentified.length ++ " repositorio(s) no identificados:",
      results := some (.repoRows unidentified), count := some unidentified.length }
  else
    { success := true,
      explanation := "Todos los repositorios han sido identificados correctamente",
      results := some (.repoRows []), count := some 0 }

/-- `NaturalLanguageQueryEngine._find_repositories_by_owner`. -/
def findRepositoriesByOwner (db : List RepoRow) (owner : String) : QueryResult :=
  let repos := get_repositories_by_owner db owner
  if repos.length != 0 then
    { success := true,
      explanation := owner ++ " tiene " ++ toString repos.length ++ " repositorio(s):",
      results := some (.repoRows repos), count := some repos.length }
  else
    { success := false,
      explanation := "No encontré repositorios para el propietario \x27" ++ owner ++ "\x27",
      results := none, count := none }

/-- `NaturalLanguageQueryEngine._find_projects_with_technology`. -/
def findProjectsWithTechnology (db : List RepoRow) (tech : String) : QueryResult :=
  let repos := get_repositories_by_technology db tech
  if repos.length != 0 then
    { success := true,
      explanation := "Encontré " ++ toString repos.length ++ " repositorio(s) que usan " ++ tech ++ ":",
      results := some (.repoRows repos), count := some repos.length }
  else
    { success := false,
      explanation := "No encontré repositorios que usen \x27" ++ tech ++ "\x27",
      results := none, count := none }

/-! ### Intent regexes

`re.search` with the patterns of `self.query_patterns`, hand-compiled with
their backtracking order.  The engine lowercases and strips the query
before matching (`query.lower().strip()`), so the `re.IGNORECASE` flag is
inert on the pattern literals, which are lowercase. -/

/-- The trailing `\s+([^?]+)` of the argument-extracting patterns: at least
one whitespace character, then the greedy nonempty group of
non-question-mark characters.  When only whitespace precedes a `?` (or the
end), the engine backtracks and the group captures the last whitespace
character. -/
def groupTail (r : List Char) : Option (List Char) :=
  match r with
  | [] => none
  | c :: _ =>
    if isPySpace c = false then none
    else
      let ws := r.takeWhile isPySpace
      let t := r.dropWhile isPySpace
      let g := t.takeWhile (· != '?')
      if g != [] then some g
      else if 2 ≤ ws.length then some [ws.getLastD ' ']
      else none

/-- `\s+(?:de|del)\s+([^?]+)` with alternation backtracking between `de` and
`del`. -/
def deTail (r : List Char) : Option (List Char) :=
  match r with
  | [] => none
  | c :: _ =>
    if isPySpace c = false then none
    else
      let r2 := r.dropWhile isPySpace
      (dropPre "de".data r2).bind groupTail <|> (dropPre "del".data r2).bind groupTail

/-- The `owner_repositories` regex
`(?:repositorios|repos)\s+(?:de|del)\s+([^?]+)` tried at one position. -/
def matchOwnerAt (s : List Char) : Option (List Char) :=
  (dropPre "repositorios".data s).bind deTail <|> (dropPre "repos".data s).bind deTail

/-- `re.search` for the `owner_repositories` pattern: leftmost position
wins. -/
def searchOwner : List Char → Option (List Char)
  | [] => none
  | s@(_ :: t) => matchOwnerAt s <|> searchOwner t

/-- `\s+(?:usan|utilizan|tienen)\s+([^?]+)`. -/
def usanTail (r : List Char) : Option (List Char) :=
  match r with
  | [] => none
  | c :: _ =>
    if isPySpace c = false then none
    else
      let r2 := r.dropWhile isPySpace
      (dropPre "usan".data r2).bind groupTail <|>
      (dropPre "utilizan".data r2).bind groupTail <|>
      (dropPre "tienen".data r2).bind groupTail

/-- `\s+(?:repositorios|proyectos)` followed by `usanTail`. -/
def reposProyTail (r : List Char) : Option (List Char) :=
  match r with
  | [] => none
  | c :: _ =>
    if isPySpace c = false then none
    else
      let r2 := r.dropWhile isPySpace
      (dropPre "repositorios".data r2).bind usanTail <|>
      (dropPre "proyectos".data r2).bind usanTail

/-- The `projects_with_technology` regex
`(?:qué|que)\s+(?:repositorios|proyectos)\s+(?:usan|utilizan|tienen)\s+([^?]+)`
tried at one position. -/
def matchTechAt (s : List Char) : Option (List Char) :=
  (dropPre "qué".data s).bind reposProyTail <|> (dropPre "que".data s).bind reposProyTail

/-- `re.search` for the `projects_with_technology` pattern. -/
def searchTech : List Char → Option (List Char)
  | [] => none
  | s@(_ :: t) => matchTechAt s <|> searchTech t

/-- The `owner_repositories` intent as dispatched by
`process_natural_language_query`: lowercase and strip the query, search the
pattern, strip the captured group and run the owner lookup.  `none` when
the pattern does not fire. -/
def ownerReposIntent (db : List RepoRow) (query : String) : Option QueryResult :=
  match searchOwner (pyStrip (pyLower query).data) with
  | some g => some (findRepositoriesByOwner db ⟨pyStrip g⟩)
  | none => none

/-- The `projects_with_technology` intent, same pipeline. -/
def projectsWithTechIntent (db : List RepoRow) (query : String) : Option QueryResult :=
  match searchTech (pyStrip (pyLower query).data) with
  | some g => some (findProjectsWithTechnology db ⟨pyStrip g⟩)
  | none => none

/-- A concrete collaborator environment for exercising the batch scanner:
URL `"a"` times out and fails at the persistence step, every other URL
clones and persists successfully. -/
def envW (u : String) : ScanInputs :=
  if u == "a" then ⟨.ok, .timedOut, .ok [], .absent, .ok ⟨[], 0⟩, true, false⟩
  else ⟨.ok, .completed 0 "", .ok ["pom.xml"], .absent, .ok ⟨[], 0⟩, true, true⟩

/-- A sample stored row with an all-lowercase owner name, used to exercise
the owner intent. -/
def rowW : RepoRow :=
  { url := "u", owner_name := "alice", repo_name := "n", technologies := ["Java"],
    is_identified := true, status := "analyzed", ai_explanation := none }

/-! ## Substring helper lemmas -/

theorem leadsWith_append (n r : List Char) : leadsWith n (n ++ r) = true := by
  induction n with
  | nil => rfl
  | cons a as ih => simp [leadsWith, ih]

theorem hasSubList_self_append (n s : List Char) : hasSubList n (n ++ s) = true := by
  cases h : n ++ s with
  | nil =>
    have hn : n = [] := by
      cases n with
      | nil => rfl
      | cons a as => simp at h
    simp [hn, hasSubList, leadsWith] at *
  | cons c cs =>
    rw [hasSubList, ← h, leadsWith_append]
    simp

theorem hasSubList_append_right (n a s : List Char) (h : hasSubList n s = true) :
    hasSubList n (a ++ s) = true := by
  induction a with
  | nil => simpa using h
  | cons c cs ih =>
    rw [List.cons_append, hasSubList, ih]
    simp

theorem hasSubList_mid (a n b : List Char) : hasSubList n (a ++ (n ++ b)) = true :=
  hasSubList_append_right n a (n ++ b) (hasSubList_self_append n b)

/-! ## Claim C5 -/

theorem find?_map_replace (db : List RepoRow) (row : RepoRow) :
    ((db.map (fun r => if r.url == row.url then row else r)).find?
        (fun r => r.url == row.url))
      = (db.find? (fun r => r.url == row.url)).map (fun _ => row) := by
  induction db with
  | nil => rfl
  | cons h t ih =>
    simp only [List.map_cons]
    by_cases hp : (h.url == row.url) = true
    · rw [if_pos hp]
      simp [List.find?, hp]
    · rw [if_neg hp]
      have hp2 : (h.url == row.url) = false := by simpa using hp
      simp only [List.find?, hp2, cond_false]
      exact ih

theorem find?_append_self (t : List RepoRow) (row : RepoRow)
    (h : ∀ r ∈ t, (r.url == row.url) = false) :
    (t ++ [row]).find? (fun r => r.url == row.url) = some row := by
  induction t with
  | nil => simp [List.find?]
  | cons a l ih =>
    have ha : (a.url == row.url) = false := h a (List.mem_cons_self a l)
    simp only [List.cons_append, List.find?, ha]
    exact ih (fun r hr => h r (List.mem_cons_of_mem a hr))

/-- Claim C5: re-scanning a URL and persisting it fully replaces the stored
record for that URL — looking the URL up after the upsert yields exactly the
new row, every field included, with nothing retained from the old row. -/
theorem claim_C5 (db : List RepoRow) (row : RepoRow) :
    get_repository_by_url (insert_repository db row true).2 row.url = some row := by
  unfold insert_repository get_repository_by_url
  by_cases hx : db.any (fun r => r.url == row.url) = true
  · simp only [if_pos rfl, hx, if_true]
    rw [find?_map_replace]
    rcases hf : db.find? (fun r => r.url == row.url) with _ | r0
    · exfalso
      rw [List.any_eq_true] at hx
      obtain ⟨x, hx1, hx2⟩ := hx
      have := List.find?_eq_none.mp hf x hx1
      simp [hx2] at this
    · rw [hf]
      rfl
  · simp only [if_pos rfl, hx, if_false]
    rw [Bool.not_eq_true, List.any_eq_false] at hx
    exact find?_append_self db row (fun r hr => by
      have := hx r hr
      simpa using this)

/-! ## Claim C6 -/

/-- Claim C6: on every exit path of `scan_repository` (scratch-dir failure,
clone failure, analyzed), the returned record satisfies
`is_identified = true` exactly when its technology list is nonempty. -/
theorem claim_C6 (url : String) (mk : MkdirOutcome) (clone : CloneOutcome)
    (walk : Except String (List String)) (manifest : ManifestState)
    (census : Except String CensusInput) (rmtreeOk : Bool) :
    ((scan_repository url mk clone walk manifest census rmtreeOk).1.is_identified = true
      ↔ (scan_repository url mk clone walk manifest census rmtreeOk).1.technologies ≠ []) := by
  cases mk with
  | raised msg => simp [scan_repository]
  | ok =>
    unfold scan_repository
    by_cases hc : clone_repository clone = false
    · simp [hc]
    · simp only [hc, if_false]
      set techs := scan_directory_for_technologies walk manifest with htechs
      by_cases hid : decide (0 < techs.length) = true
      · simp [hid, List.length_pos.mp (of_decide_eq_true hid)]
      · have hlt : ¬(0 < techs.length) := of_decide_eq_false (by simpa using hid)
        have h0 : techs.length = 0 := by omega
        have hnil : techs = [] := List.length_eq_zero.mp h0
        simp [hid, hnil]

/-! ## Claim C8 -/

/-- Claim C8: when every stored record is identified, the
`unidentified_repos` intent succeeds with an empty list, count 0 and the
all-identified message — it is never reported as a failure. -/
theorem claim_C8 (db : List RepoRow) (h : ∀ r ∈ db, r.is_identified = true) :
    getUnidentifiedRepositories db =
      { success := true,
        explanation := "Todos los repositorios han sido identificados correctamente",
        results := some (.repoRows []), count := some 0 } := by
  have hempty : get_unidentified_repositories db = [] := by
    unfold get_unidentified_repositories
    rw [List.reverse_eq_nil_iff, List.filter_eq_nil_iff]
    intro r hr
    simp [h r hr]
  unfold getUnidentifiedRepositories
  rw [hempty]
  rfl

/-- Witness for C8 at a store holding one identified repository. -/
theorem claim_C8_witness :
    getUnidentifiedRepositories
        [{ url := "u", owner_name := "o", repo_name := "n", technologies := ["Java"],
           is_identified := true, status := "analyzed", ai_explanation := none }] =
      { success := true,
        explanation := "Todos los repositorios han sido identificados correctamente",
        results := some (.repoRows []), count := some 0 } :=
  claim_C8 _ (by intro r hr; simp at hr; rw [hr])

/-! ## Claim C1 (corrected) -/

/-- Claim C1 as stated is false: with a successful clone and a
classification tree walk that raises, `scan_repository` returns
`status = "analyzed"`, not `status = "error"` — the exception is caught
inside `scan_directory_for_technologies`, not by `scan_repository`'s
handler. -/
theorem claim_C1_counterexample :
    ((scan_repository "https://github.com/o/r" .ok (.completed 0 "")
        (.error "boom") .absent (.ok ⟨[], 0⟩) true).1.status = "analyzed")
    ∧ ¬((scan_repository "https://github.com/o/r" .ok (.completed 0 "")
        (.error "boom") .absent (.ok ⟨[], 0⟩) true).1.status = "error") := by
  constructor
  · rfl
  · intro h
    exact absurd (rfl.symm.trans h) (by decide)

/-- Claim C1, amended: an exception raised during classification (tree walk
or pattern matching) is caught inside `scan_directory_for_technologies`,
which returns an empty technology list, so `scan_repository` returns a
record with `status = "analyzed"` and no technologies; classification
failures never propagate to the caller as a raised exception.  Exceptions
raised in `scan_repository`'s own orchestration (modelled here by scratch
directory creation) are the ones converted to `status = "error"` with the
exception message embedded in the explanation. -/
theorem claim_C1_amended :
    (∀ (url emsg : String) (clone : CloneOutcome) (manifest : ManifestState)
       (census : Except String CensusInput) (rmtreeOk : Bool),
       clone_repository clone = true →
       ((scan_repository url .ok clone (.error emsg) manifest census rmtreeOk).1.status = "analyzed"
        ∧ (scan_repository url .ok clone (.error emsg) manifest census rmtreeOk).1.technologies = []))
    ∧ (∀ (url emsg : String) (clone : CloneOutcome)
         (walk : Except String (List String)) (manifest : ManifestState)
         (census : Except String CensusInput) (rmtreeOk : Bool),
       ((scan_repository url (.raised emsg) clone walk manifest census rmtreeOk).1.status = "error"
        ∧ (scan_repository url (.raised emsg) clone walk manifest census rmtreeOk).1.ai_explanation
            = some (errorMsg emsg))) := by
  constructor
  · intro url emsg clone manifest census rmtreeOk hc
    constructor <;> simp [scan_repository, hc, scan_directory_for_technologies]
  · intro url emsg clone walk manifest census rmtreeOk
    exact ⟨rfl, rfl⟩

/-- Witness for the amended C1 at a concrete successful clone and raising
walk. -/
theorem claim_C1_amended_witness :
    (scan_repository "u" .ok (.completed 0 "") (.error "boom") .absent
        (.ok ⟨[], 0⟩) true).1.status = "analyzed" :=
  (claim_C1_amended.1 "u" "boom" (.completed 0 "") .absent (.ok ⟨[], 0⟩) true rfl).1

/-! ## Claim C3 -/

/-- Claim C3: a clone that times out or exits nonzero yields
`status = "clone_failed"` with the explanation that names the URL and asks
for its validity/visibility to be checked; and (second conjunct) whenever
the scratch-directory removal of the `finally` block succeeds, the scratch
directory no longer exists after `scan_repository` returns, on every exit
path — clone failure, analyzed, or an exception before the clone. -/
theorem claim_C3 :
    (∀ (url : String) (clone : CloneOutcome)
       (walk : Except String (List String)) (manifest : ManifestState)
       (census : Except String CensusInput),
       (clone = CloneOutcome.timedOut ∨ ∃ rc err, clone = .completed rc err ∧ rc ≠ 0) →
       ((scan_repository url .ok clone walk manifest census true).1.status = "clone_failed"
        ∧ (scan_repository url .ok clone walk manifest census true).1.ai_explanation
            = some (cloneFailMsg url)
        ∧ strHasSub (cloneFailMsg url) url = true
        ∧ (scan_repository url .ok clone walk manifest census true).2 = false))
    ∧ (∀ (url : String) (mk : MkdirOutcome) (clone : CloneOutcome)
         (walk : Except String (List String)) (manifest : ManifestState)
         (census : Except String CensusInput),
       (scan_repository url mk clone walk manifest census true).2 = false) := by
  constructor
  · intro url clone walk manifest census hfail
    have hc : clone_repository clone = false := by
      rcases hfail with h | ⟨rc, err, h, hrc⟩
      · rw [h]; rfl
      · rw [h]
        simpa [clone_repository] using hrc
    have hsub : strHasSub (cloneFailMsg url) url = true := by
      unfold strHasSub cloneFailMsg
      rw [String.data_append, String.data_append, List.append_assoc]
      exact hasSubList_mid _ _ _
    refine ⟨?_, ?_, hsub, rfl⟩ <;> simp [scan_repository, hc]
  · intro url mk clone walk manifest census
    cases mk with
    | raised msg => rfl
    | ok => rfl

/-- Witness for C3 at a concrete timed-out clone. -/
theorem claim_C3_witness :
    (scan_repository "https://x/a/b" .ok .timedOut (.ok []) .absent
        (.ok ⟨[], 0⟩) true).1.status = "clone_failed" :=
  (claim_C3.1 "https://x/a/b" .timedOut (.ok []) .absent (.ok ⟨[], 0⟩)
    (Or.inl rfl)).1

/-! ## Claim C2 -/

theorem mem_classifyStep (files : List String) (m : ManifestState) (acc : List String)
    (e : String × List String) (t : String) :
    t ∈ classifyStep files m acc e
      ↔ (t ∈ acc ∨ (t = e.1 ∧ (e.2.find? (fun p => matchesPattern files p)).isSome = true
                    ∧ validate_technology e.1 m files = true)) := by
  unfold classifyStep
  rcases hf : e.2.find? (fun p => matchesPattern files p) with _ | p
  · simp
  · simp only [Option.isSome_some, true_and]
    by_cases hc : acc.contains e.1 = true
    · rw [if_pos hc]
      constructor
      · exact Or.inl
      · rintro (h | ⟨rfl, hv⟩)
        · exact h
        · simpa using hc
    · rw [if_neg hc]
      by_cases hv : validate_technology e.1 m files = true
      · rw [if_pos hv]
        simp only [List.mem_append, List.mem_singleton]
        constructor
        · rintro (h | h)
          · exact Or.inl h
          · exact Or.inr ⟨h, hv⟩
        · rintro (h | ⟨h, _⟩)
          · exact Or.inl h
          · exact Or.inr h
      · rw [if_neg hv]
        constructor
        · exact Or.inl
        · rintro (h | ⟨_, hv2⟩)
          · exact h
          · exact absurd hv2 hv

theorem mem_classify_foldl (files : List String) (m : ManifestState)
    (l : List (String × List String)) (acc : List String) (t : String) :
    t ∈ l.foldl (classifyStep files m) acc
      ↔ (t ∈ acc
         ∨ ∃ ps, (t, ps) ∈ l ∧ (ps.find? (fun p => matchesPattern files p)).isSome = true
             ∧ validate_technology t m files = true) := by
  induction l generalizing acc with
  | nil => simp
  | cons e rest ih =>
    rw [List.foldl_cons, ih]
    constructor
    · rintro (h | ⟨ps, hmem, hf, hv⟩)
      · rcases (mem_classifyStep files m acc e t).mp h with h2 | ⟨rfl, hf, hv⟩
        · exact Or.inl h2
        · exact Or.inr ⟨e.2, List.mem_cons_self e rest, hf, hv⟩
      · exact Or.inr ⟨ps, List.mem_cons_of_mem e hmem, hf, hv⟩
    · rintro (h | ⟨ps, hmem, hf, hv⟩)
      · exact Or.inl ((mem_classifyStep files m acc e t).mpr (Or.inl h))
      · rcases List.mem_cons.mp hmem with heq | hmem2
        · have ht : t = e.1 := congrArg Prod.fst heq
          exact Or.inl ((mem_classifyStep files m acc e t).mpr
            (Or.inr ⟨ht, congrArg Prod.snd heq ▸ hf, ht ▸ hv⟩))
        · exact Or.inr ⟨ps, hmem2, hf, hv⟩

theorem react_pats (ps : List String) (h : ("React", ps) ∈ technology_patterns) :
    ps = ["package.json"] := by
  simp only [technology_patterns, List.mem_cons, List.not_mem_nil, or_false,
    Prod.mk.injEq] at h
  rcases h with h|h|h|h|h|h|h|h|h|h|h|h|h|h|h|h|h
  all_goals first
    | exact h.2
    | exact absurd h.1 (by decide)

theorem matchesPattern_pkgJson (files : List String) (h : "package.json" ∈ files) :
    matchesPattern files "package.json" = true := by
  unfold matchesPattern
  rw [if_neg (by decide)]
  simp
  exact Or.inl h

/-- Claim C2: with a parseable root `package.json` in the inventory, React
is accepted exactly when `react` appears under `dependencies` or
`devDependencies`; and when the signature matched but reading or parsing
the manifest raises, React is accepted anyway (fail-open). -/
theorem claim_C2 :
    (∀ (files deps devDeps : List String), "package.json" ∈ files →
       ("React" ∈ classify files (.parsed deps devDeps)
         ↔ ("react" ∈ deps ∨ "react" ∈ devDeps)))
    ∧ (∀ files : List String, matchesPattern files "package.json" = true →
       "React" ∈ classify files ManifestState.malformed) := by
  have hfind : ∀ files : List String, matchesPattern files "package.json" = true →
      ((["package.json"] : List String).find? (fun p => matchesPattern files p)).isSome = true := by
    intro files h
    simp [List.find?, h]
  constructor
  · intro files deps devDeps hmem
    have hmp := matchesPattern_pkgJson files hmem
    rw [classify, mem_classify_foldl]
    constructor
    · rintro (h | ⟨ps, hps, hf, hv⟩)
      · simp at h
      · have hps2 := react_pats ps hps
        subst hps2
        have hor : (deps.contains "react" || devDeps.contains "react") = true := by
          simpa [validate_technology] using hv
        rcases Bool.or_eq_true_iff.mp hor with h2 | h2
        · exact Or.inl (by simpa [List.elem_iff] using h2)
        · exact Or.inr (by simpa [List.elem_iff] using h2)
    · intro h
      refine Or.inr ⟨["package.json"], by decide, hfind files hmp, ?_⟩
      have hor : (deps.contains "react" || devDeps.contains "react") = true := by
        simp only [Bool.or_eq_true]
        rcases h with h2 | h2
        · exact Or.inl (by simpa [List.elem_iff] using h2)
        · exact Or.inr (by simpa [List.elem_iff] using h2)
      simpa [validate_technology] using hor
  · intro files hmp
    rw [classify, mem_classify_foldl]
    exact Or.inr ⟨["package.json"], by decide, hfind files hmp, by simp [validate_technology]⟩

/-- Witness for C2: the accepting and fail-open cases at a one-file
inventory. -/
theorem claim_C2_witness :
    ("React" ∈ classify ["package.json"] (.parsed ["react"] []))
    ∧ ("React" ∈ classify ["package.json"] ManifestState.malformed) :=
  ⟨(claim_C2.1 ["package.json"] ["react"] [] (by decide)).mpr (Or.inl (by decide)),
   claim_C2.2 ["package.json"] (by decide)⟩

/-! ## Claim C7 -/

theorem mem_insertDesc (x : String × Nat) (m : List (String × Nat)) (b : String × Nat) :
    b ∈ insertDesc x m ↔ b = x ∨ b ∈ m := by
  induction m with
  | nil => simp [insertDesc]
  | cons y ys ih =>
    unfold insertDesc
    by_cases h : y.2 ≤ x.2
    · rw [if_pos h]
      simp [List.mem_cons]
    · rw [if_neg h]
      simp only [List.mem_cons, ih]
      tauto

theorem pairwise_insertDesc (x : String × Nat) (m : List (String × Nat))
    (hm : m.Pairwise (fun a b => b.2 ≤ a.2)) :
    (insertDesc x m).Pairwise (fun a b => b.2 ≤ a.2) := by
  induction m with
  | nil => simp [insertDesc]
  | cons y ys ih =>
    rw [List.pairwise_cons] at hm
    obtain ⟨hy, hys⟩ := hm
    unfold insertDesc
    by_cases h : y.2 ≤ x.2
    · rw [if_pos h]
      refine List.pairwise_cons.mpr ⟨?_, List.pairwise_cons.mpr ⟨hy, hys⟩⟩
      intro b hb
      rcases List.mem_cons.mp hb with rfl | hb2
      · exact h
      · exact le_trans (hy b hb2) h
    · rw [if_neg h]
      refine List.pairwise_cons.mpr ⟨?_, ih hys⟩
      intro b hb
      rcases (mem_insertDesc x ys b).mp hb with rfl | hb2
      · omega
      · exact hy b hb2

theorem pairwise_sortCountsDesc (l : List (String × Nat)) :
    (sortCountsDesc l).Pairwise (fun a b => b.2 ≤ a.2) := by
  induction l with
  | nil => simp [sortCountsDesc]
  | cons x xs ih => exact pairwise_insertDesc x (sortCountsDesc xs) ih

theorem filter_insertDesc (c : Nat) (x : String × Nat) (m : List (String × Nat)) :
    (insertDesc x m).filter (fun p => p.2 == c)
      = (if (x.2 == c) = true then x :: m.filter (fun p => p.2 == c)
         else m.filter (fun p => p.2 == c)) := by
  induction m with
  | nil =>
    by_cases hx : (x.2 == c) = true
    · simp [insertDesc, List.filter, hx]
    · simp [insertDesc, List.filter, hx]
  | cons y ys ih =>
    unfold insertDesc
    by_cases h : y.2 ≤ x.2
    · rw [if_pos h]
      simp only [List.filter_cons]
    · rw [if_neg h]
      simp only [List.filter_cons, ih]
      by_cases hx : (x.2 == c) = true <;> by_cases hy : (y.2 == c) = true
      · exfalso
        have h1 : x.2 = c := eq_of_beq hx
        have h2 : y.2 = c := eq_of_beq hy
        omega
      all_goals simp [hx, hy]

theorem filter_sortCountsDesc (c : Nat) (l : List (String × Nat)) :
    (sortCountsDesc l).filter (fun p => p.2 == c) = l.filter (fun p => p.2 == c) := by
  induction l with
  | nil => rfl
  | cons x xs ih =>
    rw [sortCountsDesc, filter_insertDesc, ih]
    by_cases hx : (x.2 == c) = true <;> simp [List.filter_cons, hx]

/-- Claim C7: on an empty store the statistics intent answers that no
repositories exist, before any percentage division; on a nonempty store it
succeeds, reporting the total count, the identified count and the top-5
technologies, which are ordered by descending frequency with ties kept in
first-seen order (the filter-per-count equality states the stability of the
sort against the insertion-ordered count table). -/
theorem claim_C7 :
    (getGeneralStatistics [] =
       { success := false, explanation := "No hay repositorios en la base de datos",
         results := none, count := none })
    ∧ (∀ db : List RepoRow, db ≠ [] →
        (getGeneralStatistics db).success = true
        ∧ (getGeneralStatistics db).results
            = some (.stats db.length
                ((get_all_repositories db).filter (fun r => r.is_identified)).length
                (topTechsOf db))
        ∧ (getGeneralStatistics db).count = some db.length
        ∧ (topTechsOf db).Pairwise (fun a b => b.2 ≤ a.2)
        ∧ (∀ c : Nat, (sortCountsDesc (countTechs (allTechs db))).filter (fun p => p.2 == c)
              = (countTechs (allTechs db)).filter (fun p => p.2 == c))) := by
  constructor
  · rfl
  · intro db hdb
    have hne : (get_all_repositories db).isEmpty = false := by
      rcases hgs : get_all_repositories db with _ | ⟨a, l⟩
      · exfalso
        unfold get_all_repositories at hgs
        exact hdb (List.reverse_eq_nil_iff.mp hgs)
      · rfl
    have hlen : (get_all_repositories db).length = db.length := by
      simp [get_all_repositories]
    refine ⟨?_, ?_, ?_, ?_, fun c => filter_sortCountsDesc c _⟩
    · simp [getGeneralStatistics, hne]
    · simp [getGeneralStatistics, hne, hlen, topTechsOf]
    · simp [getGeneralStatistics, hne, hlen]
    · exact (pairwise_sortCountsDesc _).sublist (List.take_sublist 5 _)

/-- Witness for C7 at a one-record store. -/
theorem claim_C7_witness :
    (getGeneralStatistics
        [{ url := "u", owner_name := "o", repo_name := "n", technologies := ["Java"],
           is_identified := true, status := "analyzed", ai_explanation := none }]).success
      = true :=
  (claim_C7.2 _ (by decide)).1

/-! ## Claim C9 -/

theorem scan_and_store_success (inp : ScanInputs) (url : String) (db : List RepoRow) :
    (scan_and_store_repository inp url db).1 = inp.insertOk := by
  unfold scan_and_store_repository insert_repository
  cases hio : inp.insertOk with
  | false => simp [hio]
  | true =>
    simp only [hio, if_true]
    by_cases h2 : (db.any fun r =>
        r.url == (scan_repository url inp.mkd inp.clone inp.walk inp.manifest
          inp.census inp.rmtreeOk).1.url) = true <;> simp [h2]

theorem keys_dictInsert (m : List (String × BatchEntry)) (k : String) (v : BatchEntry)
    (u : String) (h : u ∈ m.map Prod.fst ∨ u = k) :
    u ∈ (dictInsert m k v).map Prod.fst := by
  unfold dictInsert
  by_cases hk : (m.any fun p => p.1 == k) = true
  · rw [if_pos hk]
    have hmap : (m.map (fun p => if p.1 == k then (k, v) else p)).map Prod.fst
        = m.map Prod.fst := by
      rw [List.map_map]
      apply List.map_congr_left
      intro p _
      by_cases hpk : p.1 = k
      · simp [hpk]
      · simp [hpk]
    rw [hmap]
    rcases h with h | rfl
    · exact h
    · rw [List.any_eq_true] at hk
      obtain ⟨p, hp, hpk⟩ := hk
      exact eq_of_beq hpk ▸ List.mem_map_of_mem Prod.fst hp
  · rw [if_neg hk, List.map_append]
    rcases h with h | rfl
    · exact List.mem_append_left _ h
    · exact List.mem_append_right _ (by simp)

theorem dictInsert_fresh (m : List (String × BatchEntry)) (k : String) (v : BatchEntry)
    (h : k ∉ m.map Prod.fst) : dictInsert m k v = m ++ [(k, v)] := by
  unfold dictInsert
  rw [if_neg]
  intro hx
  obtain ⟨p, hp, hpk⟩ := List.any_eq_true.mp hx
  exact h (eq_of_beq hpk ▸ List.mem_map_of_mem Prod.fst hp)

theorem batchGo_covers (env : String → ScanInputs) (total : Nat) (urls : List String) :
    ∀ (i : Nat) (acc : List (String × BatchEntry)) (db : List RepoRow) (u : String),
      (u ∈ urls ∨ u ∈ acc.map Prod.fst) →
      u ∈ ((batchGo env total i urls acc db).1).map Prod.fst := by
  induction urls with
  | nil =>
    intro i acc db u h
    rcases h with h | h
    · simp at h
    · simpa [batchGo] using h
  | cons w rest ih =>
    intro i acc db u h
    rw [batchGo]
    apply ih
    rcases h with h | h
    · rcases List.mem_cons.mp h with rfl | h2
      · exact Or.inr (keys_dictInsert _ _ _ _ (Or.inr rfl))
      · exact Or.inl h2
    · exact Or.inr (keys_dictInsert _ _ _ _ (Or.inl h))

theorem batchGo_closed (env : String → ScanInputs) (total : Nat) (urls : List String) :
    ∀ (i : Nat) (acc : List (String × BatchEntry)) (db : List RepoRow),
      urls.Nodup → (∀ u ∈ urls, u ∉ acc.map Prod.fst) →
      (batchGo env total i urls acc db).1
        = acc ++ (List.enumFrom i urls).map
            (fun q => (q.2, { success := (env q.2).insertOk, scanned_at := q.1,
                              total := total })) := by
  induction urls with
  | nil => intro i acc db _ _; simp [batchGo]
  | cons w rest ih =>
    intro i acc db hnd hfresh
    obtain ⟨hw, hrest⟩ := List.nodup_cons.mp hnd
    rw [batchGo, scan_and_store_success,
      dictInsert_fresh acc w _ (hfresh w (List.mem_cons_self w rest)),
      ih (i + 1) _ _ hrest ?_]
    · rw [List.enumFrom_cons, List.map_cons, List.append_assoc]
      rfl
    · intro u hu
      rw [List.map_append, List.mem_append]
      rintro (h | h)
      · exact hfresh u (List.mem_cons_of_mem w hu) h
      · simp at h
        exact hw (h ▸ hu)

theorem mem_enumFrom_spec (l : List String) :
    ∀ (n : Nat) (q : Nat × String), q ∈ List.enumFrom n l →
      ∃ j, ∃ hj : j < l.length, q.1 = n + j ∧ l.get ⟨j, hj⟩ = q.2 := by
  induction l with
  | nil => intro n q h; simp at h
  | cons a t ih =>
    intro n q h
    rw [List.enumFrom_cons] at h
    rcases List.mem_cons.mp h with rfl | h2
    · exact ⟨0, by simp, by simp, rfl⟩
    · obtain ⟨j, hj, h1, h2⟩ := ih (n + 1) q h2
      refine ⟨j + 1, by simp; omega, by omega, ?_⟩
      simpa using h2

/-- Claim C9: the batch scanner processes the URLs one at a time in input
order (the result keys list the URLs in order), a failing URL never aborts
the processing of the others (every input URL gets an outcome entry, for
every collaborator environment, including failing ones), and each entry
carries the URL's 1-based positional index together with the batch size. -/
theorem claim_C9 (env : String → ScanInputs) (urls : List String) (db : List RepoRow) :
    (∀ u ∈ urls, ∃ e, (u, e) ∈ (batch_scan_repositories env urls db).1)
    ∧ (urls.Nodup →
        ((batch_scan_repositories env urls db).1.map Prod.fst = urls
         ∧ ∀ p ∈ (batch_scan_repositories env urls db).1,
             p.2.total = urls.length
             ∧ p.2.success = (env p.1).insertOk
             ∧ ∃ j, ∃ hj : j < urls.length, urls.get ⟨j, hj⟩ = p.1
                 ∧ p.2.scanned_at = j + 1)) := by
  constructor
  · intro u hu
    have hmem := batchGo_covers env urls.length urls 1 [] db u (Or.inl hu)
    obtain ⟨p, hp, hfst⟩ := List.mem_map.mp hmem
    refine ⟨p.2, ?_⟩
    have hpe : (p.1, p.2) = p := Prod.mk.eta
    rw [hfst] at hpe
    rw [hpe]
    exact hp
  · intro hnd
    have hclosed := batchGo_closed env urls.length urls 1 [] db hnd (by simp)
    rw [batch_scan_repositories] at *
    constructor
    · rw [hclosed, List.nil_append, List.map_map]
      rw [show (Prod.fst ∘ fun q : Nat × String =>
            (q.2, ({ success := (env q.2).insertOk, scanned_at := q.1,
                     total := urls.length } : BatchEntry))) = Prod.snd from rfl]
      exact List.enumFrom_map_snd 1 urls
    · intro p hp
      rw [hclosed, List.nil_append] at hp
      obtain ⟨q, hq, hfq⟩ := List.mem_map.mp hp
      obtain ⟨j, hj, hq1, hq2⟩ := mem_enumFrom_spec urls 1 q hq
      rw [← hfq]
      refine ⟨rfl, rfl, j, hj, ?_, ?_⟩
      · simpa using hq2
      · simp [hq1]
        omega

/-- Witness for C9: a two-URL batch in which the first URL fails to clone
and persist, yet both URLs receive outcome entries in input order. -/
theorem claim_C9_witness :
    (∃ e, ("a", e) ∈ (batch_scan_repositories envW ["a", "b"] []).1)
    ∧ (batch_scan_repositories envW ["a", "b"] []).1.map Prod.fst = ["a", "b"] :=
  ⟨(claim_C9 envW ["a", "b"] []).1 "a" (by decide),
   ((claim_C9 envW ["a", "b"] []).2 (by decide)).1⟩

/-! ## Claim C10 -/

theorem isUp_lowerChar (c : Char) : isUp (lowerChar c) = false := by
  unfold lowerChar
  by_cases h1 : (c == 'A') = true
  · rw [if_pos h1]; decide
  · rw [if_neg h1]
    by_cases h2 : (c == 'B') = true
    · rw [if_pos h2]; decide
    · rw [if_neg h2]
      by_cases h3 : (c == 'C') = true
      · rw [if_pos h3]; decide
      · rw [if_neg h3]
        by_cases h4 : (c == 'D') = true
        · rw [if_pos h4]; decide
        · rw [if_neg h4]
          by_cases h5 : (c == 'E') = true
          · rw [if_pos h5]; decide
          · rw [if_neg h5]
            by_cases h6 : (c == 'F') = true
            · rw [if_pos h6]; decide
            · rw [if_neg h6]
              by_cases h7 : (c == 'G') = true
              · rw [if_pos h7]; decide
              · rw [if_neg h7]
                by_cases h8 : (c == 'H') = true
                · rw [if_pos h8]; decide
                · rw [if_neg h8]
                  by_cases h9 : (c == 'I') = true
                  · rw [if_pos h9]; decide
                  · rw [if_neg h9]
                    by_cases h10 : (c == 'J') = true
                    · rw [if_pos h10]; decide
                    · rw [if_neg h10]
                      by_cases h11 : (c == 'K') = true
                      · rw [if_pos h11]; decide
                      · rw [if_neg h11]
                        by_cases h12 : (c == 'L') = true
                        · rw [if_pos h12]; decide
                        · rw [if_neg h12]
                          by_cases h13 : (c == 'M') = true
                          · rw [if_pos h13]; decide
                          · rw [if_neg h13]
                            by_cases h14 : (c == 'N') = true
                            · rw [if_pos h14]; decide
                            · rw [if_neg h14]
                              by_cases h15 : (c == 'O') = true
                              · rw [if_pos h15]; decide
                              · rw [if_neg h15]
                                by_cases h16 : (c == 'P') = true
                                · rw [if_pos h16]; decide
                                · rw [if_neg h16]
                                  by_cases h17 : (c == 'Q') = true
                                  · rw [if_pos h17]; decide
                                  · rw [if_neg h17]
                                    by_cases h18 : (c == 'R') = true
                                    · rw [if_pos h18]; decide
                                    · rw [if_neg h18]
                                      by_cases h19 : (c == 'S') = true
                                      · rw [if_pos h19]; decide
                                      · rw [if_neg h19]
                                        by_cases h20 : (c == 'T') = true
                                        · rw [if_pos h20]; decide
                                        · rw [if_neg h20]
                                          by_cases h21 : (c == 'U') = true
                                          · rw [if_pos h21]; decide
                                          · rw [if_neg h21]
                                            by_cases h22 : (c == 'V') = true
                                            · rw [if_pos h22]; decide
                                            · rw [if_neg h22]
                                              by_cases h23 : (c == 'W') = true
                                              · rw [if_pos h23]; decide
                                              · rw [if_neg h23]
                                                by_cases h24 : (c == 'X') = true
                                                · rw [if_pos h24]; decide
                                                · rw [if_neg h24]
                                                  by_cases h25 : (c == 'Y') = true
                                                  · rw [if_pos h25]; decide
                                                  · rw [if_neg h25]
                                                    by_cases h26 : (c == 'Z') = true
                                                    · rw [if_pos h26]; decide
                                                    · rw [if_neg h26]
                                                      simp only [Bool.not_eq_true] at h1 h2 h3 h4 h5 h6 h7 h8 h9 h10 h11 h12 h13 h14 h15 h16 h17 h18 h19 h20 h21 h22 h23 h24 h25 h26
                                                      simp [isUp, h1, h2, h3, h4, h5, h6, h7, h8, h9, h10, h11, h12, h13, h14, h15, h16, h17, h18, h19, h20, h21, h22, h23, h24, h25, h26]

theorem no_upper_pyLower (q : String) : ∀ c ∈ (pyLower q).data, isUp c = false := by
  intro c hc
  obtain ⟨a, _, rfl⟩ := List.mem_map.mp hc
  exact isUp_lowerChar a

theorem mem_of_dropPre (p : List Char) : ∀ (s r : List Char), dropPre p s = some r →
    ∀ c ∈ r, c ∈ s := by
  induction p with
  | nil =>
    intro s r h c hc
    rw [dropPre] at h
    injection h with h
    exact h ▸ hc
  | cons a as ih =>
    intro s r h c hc
    cases s with
    | nil => exact absurd h (by simp [dropPre])
    | cons b bs =>
      rw [dropPre] at h
      by_cases hab : (a == b) = true
      · rw [if_pos hab] at h
        exact List.mem_cons_of_mem b (ih bs r h c hc)
      · rw [if_neg hab] at h
        cases h

theorem mem_of_pyStrip (l : List Char) (c : Char) (h : c ∈ pyStrip l) : c ∈ l := by
  unfold pyStrip at h
  rw [List.mem_reverse] at h
  have h2 := (List.dropWhile_sublist _).subset h
  rw [List.mem_reverse] at h2
  exact (List.dropWhile_sublist _).subset h2

theorem getLastD_mem (l : List Char) : ∀ d : Char, l ≠ [] → l.getLastD d ∈ l := by
  induction l with
  | nil => intro d h; exact absurd rfl h
  | cons a t ih =>
    intro d _
    rw [List.getLastD_cons]
    cases t with
    | nil => simp [List.getLastD]
    | cons b u => exact List.mem_cons_of_mem a (ih a (by simp))

theorem orElse_eq_some {α : Type} (x y : Option α) (g : α) (h : (x <|> y) = some g) :
    x = some g ∨ y = some g := by
  cases x with
  | some v => left; simpa using h
  | none => right; simpa using h

theorem mem_of_groupTail (r g : List Char) (h : groupTail r = some g) :
    ∀ c ∈ g, c ∈ r := by
  cases r with
  | nil => cases h
  | cons a t =>
    simp only [groupTail] at h
    by_cases ha : isPySpace a = false
    · rw [if_pos ha] at h; cases h
    · rw [if_neg ha] at h
      by_cases hg : (((a :: t).dropWhile isPySpace).takeWhile (· != '?') != []) = true
      · rw [if_pos hg] at h
        injection h with h
        subst h
        intro c hc
        have h1 := (List.takeWhile_sublist _).subset hc
        exact (List.dropWhile_sublist _).subset h1
      · rw [if_neg hg] at h
        by_cases hws : 2 ≤ ((a :: t).takeWhile isPySpace).length
        · rw [if_pos hws] at h
          injection h with h
          subst h
          intro c hc
          rw [List.mem_singleton] at hc
          subst hc
          have hne : (a :: t).takeWhile isPySpace ≠ [] := by
            intro hnil
            rw [hnil] at hws
            simp at hws
          exact (List.takeWhile_sublist _).subset
            (getLastD_mem ((a :: t).takeWhile isPySpace) ' ' hne)
        · rw [if_neg hws] at h
          cases h

theorem mem_of_kwBind (kw r2 g : List Char) (f : List Char → Option (List Char))
    (hf : ∀ v g2, f v = some g2 → ∀ c ∈ g2, c ∈ v)
    (h : (dropPre kw r2).bind f = some g) : ∀ c ∈ g, c ∈ r2 := by
  obtain ⟨v, hv, hg⟩ := Option.bind_eq_some.mp h
  intro c hc
  exact mem_of_dropPre kw r2 v hv c (hf v g hg c hc)

theorem mem_of_deTail (r g : List Char) (h : deTail r = some g) : ∀ c ∈ g, c ∈ r := by
  cases r with
  | nil => cases h
  | cons a t =>
    simp only [deTail] at h
    by_cases ha : isPySpace a = false
    · rw [if_pos ha] at h; cases h
    · rw [if_neg ha] at h
      intro c hc
      have hsub : c ∈ (a :: t).dropWhile isPySpace := by
        rcases orElse_eq_some _ _ _ h with h1 | h1
        · exact mem_of_kwBind _ _ _ groupTail mem_of_groupTail h1 c hc
        · exact mem_of_kwBind _ _ _ groupTail mem_of_groupTail h1 c hc
      exact (List.dropWhile_sublist _).subset hsub

theorem mem_of_matchOwnerAt (s g : List Char) (h : matchOwnerAt s = some g) :
    ∀ c ∈ g, c ∈ s := by
  unfold matchOwnerAt at h
  rcases orElse_eq_some _ _ _ h with h1 | h1 <;>
    exact mem_of_kwBind _ _ _ deTail mem_of_deTail h1

theorem mem_of_searchOwner (s g : List Char) (h : searchOwner s = some g) :
    ∀ c ∈ g, c ∈ s := by
  induction s with
  | nil => cases h
  | cons a t ih =>
    rw [searchOwner] at h
    rcases orElse_eq_some _ _ _ h with h1 | h1
    · exact mem_of_matchOwnerAt _ g h1
    · intro c hc
      exact List.mem_cons_of_mem a (ih h1 c hc)

theorem mem_of_usanTail (r g : List Char) (h : usanTail r = some g) : ∀ c ∈ g, c ∈ r := by
  cases r with
  | nil => cases h
  | cons a t =>
    simp only [usanTail] at h
    by_cases ha : isPySpace a = false
    · rw [if_pos ha] at h; cases h
    · rw [if_neg ha] at h
      intro c hc
      have hsub : c ∈ (a :: t).dropWhile isPySpace := by
        rcases orElse_eq_some _ _ _ h with h1 | h1
        · exact mem_of_kwBind _ _ _ groupTail mem_of_groupTail h1 c hc
        · rcases orElse_eq_some _ _ _ h1 with h2 | h2 <;>
            exact mem_of_kwBind _ _ _ groupTail mem_of_groupTail h2 c hc
      exact (List.dropWhile_sublist _).subset hsub

theorem mem_of_reposProyTail (r g : List Char) (h : reposProyTail r = some g) :
    ∀ c ∈ g, c ∈ r := by
  cases r with
  | nil => cases h
  | cons a t =>
    simp only [reposProyTail] at h
    by_cases ha : isPySpace a = false
    · rw [if_pos ha] at h; cases h
    · rw [if_neg ha] at h
      intro c hc
      have hsub : c ∈ (a :: t).dropWhile isPySpace := by
        rcases orElse_eq_some _ _ _ h with h1 | h1 <;>
          exact mem_of_kwBind _ _ _ usanTail mem_of_usanTail h1 c hc
      exact (List.dropWhile_sublist _).subset hsub

theorem mem_of_matchTechAt (s g : List Char) (h : matchTechAt s = some g) :
    ∀ c ∈ g, c ∈ s := by
  unfold matchTechAt at h
  rcases orElse_eq_some _ _ _ h with h1 | h1 <;>
    exact mem_of_kwBind _ _ _ reposProyTail mem_of_reposProyTail h1

theorem mem_of_searchTech (s g : List Char) (h : searchTech s = some g) :
    ∀ c ∈ g, c ∈ s := by
  induction s with
  | nil => cases h
  | cons a t ih =>
    rw [searchTech] at h
    rcases orElse_eq_some _ _ _ h with h1 | h1
    · exact mem_of_matchTechAt _ g h1
    · intro c hc
      exact List.mem_cons_of_mem a (ih h1 c hc)

theorem ownerArg_no_upper (q : String) (g : List Char)
    (h : searchOwner (pyStrip (pyLower q).data) = some g) :
    hasUpper ⟨pyStrip g⟩ = false := by
  unfold hasUpper
  rw [List.any_eq_false]
  intro c hc
  have h1 : c ∈ g := mem_of_pyStrip g c hc
  have h2 : c ∈ pyStrip (pyLower q).data := mem_of_searchOwner _ g h c h1
  have h3 : c ∈ (pyLower q).data := mem_of_pyStrip _ c h2
  simp [no_upper_pyLower q c h3]

theorem techArg_no_upper (q : String) (g : List Char)
    (h : searchTech (pyStrip (pyLower q).data) = some g) :
    hasUpper ⟨pyStrip g⟩ = false := by
  unfold hasUpper
  rw [List.any_eq_false]
  intro c hc
  have h1 : c ∈ g := mem_of_pyStrip g c hc
  have h2 : c ∈ pyStrip (pyLower q).data := mem_of_searchTech _ g h c h1
  have h3 : c ∈ (pyLower q).data := mem_of_pyStrip _ c h2
  simp [no_upper_pyLower q c h3]

/-- Claim C10: the engine lowercases the whole query before intent
extraction, so every extracted argument is free of uppercase letters;
since `owner_repositories` matches `owner_name` exactly and
`projects_with_technology` matches technology membership exactly (both
case-sensitively), any record these two intents return was matched through
an uppercase-free owner name, resp. an uppercase-free technology label —
hence a stored owner name or technology label containing an uppercase
letter (as every label the classifier can produce does, first conjunct) can
never be matched by these intents. -/
theorem claim_C10 :
    (∀ e ∈ technology_patterns, hasUpper e.1 = true)
    ∧ (∀ (q : String) (g : List Char),
        searchOwner (pyStrip (pyLower q).data) = some g → hasUpper ⟨pyStrip g⟩ = false)
    ∧ (∀ (db : List RepoRow) (q : String) (res : QueryResult) (rows : List RepoRow)
         (r : RepoRow), ownerReposIntent db q = some res →
         res.results = some (.repoRows rows) → r ∈ rows → hasUpper r.owner_name = false)
    ∧ (∀ (db : List RepoRow) (q : String) (res : QueryResult) (rows : List RepoRow)
         (r : RepoRow), projectsWithTechIntent db q = some res →
         res.results = some (.repoRows rows) → r ∈ rows →
         ∃ t ∈ r.technologies, hasUpper t = false) := by
  refine ⟨by decide, ownerArg_no_upper, ?_, ?_⟩
  · intro db q res rows r hint hres hr
    unfold ownerReposIntent at hint
    rcases hs : searchOwner (pyStrip (pyLower q).data) with _ | g
    · rw [hs] at hint; cases hint
    · rw [hs] at hint
      injection hint with hint
      subst hint
      simp only [findRepositoriesByOwner] at hres
      by_cases hl : ((get_repositories_by_owner db (⟨pyStrip g⟩ : String)).length != 0) = true
      · rw [if_pos hl] at hres
        simp only [Option.some.injEq, QueryValue.repoRows.injEq] at hres
        subst hres
        have hmem := (List.mem_filter.mp (by exact hr)).2
        have heq : r.owner_name = ⟨pyStrip g⟩ := eq_of_beq hmem
        rw [heq]
        exact ownerArg_no_upper q g hs
      · rw [if_neg hl] at hres
        cases hres
  · intro db q res rows r hint hres hr
    unfold projectsWithTechIntent at hint
    rcases hs : searchTech (pyStrip (pyLower q).data) with _ | g
    · rw [hs] at hint; cases hint
    · rw [hs] at hint
      injection hint with hint
      subst hint
      simp only [findProjectsWithTechnology] at hres
      by_cases hl : ((get_repositories_by_technology db (⟨pyStrip g⟩ : String)).length != 0) = true
      · rw [if_pos hl] at hres
        simp only [Option.some.injEq, QueryValue.repoRows.injEq] at hres
        subst hres
        have hmem := (List.mem_filter.mp (by exact hr)).2
        refine ⟨⟨pyStrip g⟩, ?_, techArg_no_upper q g hs⟩
        simpa [List.elem_iff] using hmem
      · rw [if_neg hl] at hres
        cases hres

/-- Witness for C10: a query for an all-lowercase owner retrieves the
matching row, whose owner name is then uppercase-free. -/
theorem claim_C10_witness : hasUpper rowW.owner_name = false :=
  claim_C10.2.2.1 [rowW] "repositorios de alice"
    (findRepositoriesByOwner [rowW] "alice") [rowW] rowW (by decide) (by decide)
    (List.mem_singleton_self rowW)

/-! ## Claim C4 -/

theorem dropPre_append (p r : List Char) : dropPre p (p ++ r) = some r := by
  induction p with
  | nil => rfl
  | cons a as ih => simp [dropPre, ih]

theorem splitFirst_append (sep : Char) (l r : List Char) (h : ∀ c ∈ l, c ≠ sep) :
    splitFirst sep (l ++ sep :: r) = some (l, r) := by
  induction l with
  | nil => simp [splitFirst]
  | cons a as ih =>
    have ha : a ≠ sep := h a (List.mem_cons_self a as)
    rw [List.cons_append, splitFirst, if_neg (by simpa using ha),
      ih (fun c hc => h c (List.mem_cons_of_mem a hc))]

theorem dropTrailSlash_eq (l : List Char) (h : ∀ c, l.reverse.head? = some c → c ≠ '/') :
    dropTrailSlash l = l := by
  unfold dropTrailSlash
  split
  · rename_i rest heq
    exact absurd (heq ▸ rfl) (fun hx => h '/' hx rfl)
  · rfl

theorem beq_nil_false_of_ne_nil (l : List Char) (h : l ≠ []) :
    (l == ([] : List Char)) = false := by
  cases hl : l with
  | nil => exact absurd hl h
  | cons a t => rfl

theorem head?_reverse_mem (P B l : List Char) (hB : B ≠ []) (hl : l = P ++ B) :
    ∀ c, l.reverse.head? = some c → c ∈ B := by
  subst hl
  intro c hc
  rw [List.reverse_append] at hc
  cases hrev : B.reverse with
  | nil => exact absurd (List.reverse_eq_nil_iff.mp hrev) hB
  | cons b u =>
    rw [hrev, List.cons_append] at hc
    injection hc with hc
    subst hc
    exact List.mem_reverse.mp (hrev ▸ List.mem_cons_self b u)

theorem pyStrip_eq (l : List Char)
    (h1 : ∀ c, l.head? = some c → isPySpace c = false)
    (h2 : ∀ c, l.reverse.head? = some c → isPySpace c = false) :
    pyStrip l = l := by
  unfold pyStrip
  cases l with
  | nil => rfl
  | cons a t =>
    have ha : isPySpace a = false := h1 a rfl
    rw [List.dropWhile_cons, ha]
    simp only [Bool.false_eq_true, if_false]
    cases hrev : (a :: t).reverse with
    | nil => simp at hrev
    | cons b u =>
      have hb : isPySpace b = false := h2 b (by rw [hrev]; rfl)
      rw [List.dropWhile_cons, hb]
      simp only [Bool.false_eq_true, if_false]
      rw [← hrev, List.reverse_reverse]

theorem pyRstripSlash_eq (l : List Char)
    (h : ∀ c, l.reverse.head? = some c → c ≠ '/') :
    pyRstripSlash l = l := by
  unfold pyRstripSlash
  cases hrev : l.reverse with
  | nil =>
    have hl : l = [] := List.reverse_eq_nil_iff.mp hrev
    subst hl
    rfl
  | cons b u =>
    have hb : b ≠ '/' := h b (by rw [hrev]; rfl)
    rw [List.dropWhile_cons, if_neg (by simpa using hb), ← hrev,
      List.reverse_reverse]

theorem pyRstripSlash_append_slash (l : List Char)
    (h : ∀ c, l.reverse.head? = some c → c ≠ '/') :
    pyRstripSlash (l ++ ['/']) = l := by
  unfold pyRstripSlash
  rw [List.reverse_append]
  show (('/' :: l.reverse).dropWhile (· == '/')).reverse = l
  rw [List.dropWhile_cons]
  simp only [beq_self_eq_true, if_true]
  cases hrev : l.reverse with
  | nil =>
    have hl : l = [] := List.reverse_eq_nil_iff.mp hrev
    subst hl
    rfl
  | cons b u =>
    have hb : b ≠ '/' := h b (by rw [hrev]; rfl)
    rw [List.dropWhile_cons, if_neg (by simpa using hb), ← hrev,
      List.reverse_reverse]

theorem preprocess_noop (l : List Char)
    (h1 : ∀ c, l.head? = some c → isPySpace c = false)
    (h2 : ∀ c, l.reverse.head? = some c → (isPySpace c = false ∧ c ≠ '/')) :
    pyRstripSlash (pyStrip l) = l := by
  rw [pyStrip_eq l h1 (fun c hc => (h2 c hc).1)]
  exact pyRstripSlash_eq l (fun c hc => (h2 c hc).2)

theorem head?_reverse_append (P B : List Char) (hB : B ≠ []) :
    (P ++ B).reverse.head? = B.reverse.head? := by
  rw [List.reverse_append]
  cases hrev : B.reverse with
  | nil => exact absurd (List.reverse_eq_nil_iff.mp hrev) hB
  | cons b u => rfl

theorem tailMatch_plain (A B : List Char) (hA : A ≠ []) (hAs : ∀ c ∈ A, c ≠ '/')
    (hB : B ≠ []) (hBs : ∀ c ∈ B, c ≠ '/') (hgit : stripGitTail B = B) :
    tailMatch (A ++ '/' :: B) = some (A, B) := by
  have hdrop : dropTrailSlash B = B := by
    apply dropTrailSlash_eq
    intro c hc
    cases hrev : B.reverse with
    | nil => rw [hrev] at hc; cases hc
    | cons b u =>
      rw [hrev] at hc
      injection hc with hc
      subst hc
      exact hBs _ (List.mem_reverse.mp (hrev ▸ List.mem_cons_self _ u))
  have hany : (B.any (· == '/')) = false := by
    simp only [List.any_eq_false]
    intro c hc
    simpa using hBs c hc
  unfold tailMatch
  rw [splitFirst_append '/' A B hAs]
  simp only [beq_nil_false_of_ne_nil A hA, beq_nil_false_of_ne_nil B hB, hdrop, hany,
    Bool.false_eq_true, if_false, hgit]

theorem stripGitTail_append_git (B : List Char) (hB : B ≠ []) :
    stripGitTail (B ++ ".git".data) = B := by
  unfold stripGitTail
  have hlen : (B ++ ".git".data).length = B.length + 4 := by simp
  rw [if_pos]
  · rw [hlen, Nat.add_sub_cancel, List.take_left]
  · rw [hlen, Nat.add_sub_cancel, List.drop_left]
    have h4 : 4 < B.length + 4 := by
      have : 0 < B.length := List.length_pos.mpr hB
      omega
    rw [decide_eq_true h4]
    decide

theorem tailMatch_git (A B : List Char) (hA : A ≠ []) (hAs : ∀ c ∈ A, c ≠ '/')
    (hB : B ≠ []) (hBs : ∀ c ∈ B, c ≠ '/') :
    tailMatch (A ++ '/' :: (B ++ ".git".data)) = some (A, B) := by
  have hne : B ++ ".git".data ≠ [] := by
    cases hBd : B with
    | nil => exact absurd hBd hB
    | cons x xs => simp
  have hdrop : dropTrailSlash (B ++ ".git".data) = B ++ ".git".data := by
    apply dropTrailSlash_eq
    intro c hc
    rw [head?_reverse_append B ".git".data (by decide)] at hc
    have : c = 't' := by
      have h2 : (".git".data.reverse.head?) = some 't' := rfl
      rw [h2] at hc
      injection hc with hc
      exact hc.symm
    subst this
    decide
  have hany : ((B ++ ".git".data).any (· == '/')) = false := by
    simp only [List.any_eq_false]
    intro c hc
    rcases List.mem_append.mp hc with h | h
    · simpa using hBs c h
    · have hc4 : c = '.' ∨ c = 'g' ∨ c = 'i' ∨ c = 't' := by simpa using h
      rcases hc4 with rfl | rfl | rfl | rfl <;> decide
  unfold tailMatch
  rw [splitFirst_append '/' A (B ++ ".git".data) hAs]
  simp only [beq_nil_false_of_ne_nil A hA, beq_nil_false_of_ne_nil _ hne, hdrop, hany,
    Bool.false_eq_true, if_false, stripGitTail_append_git B hB]

theorem pat1_github (X : List Char) :
    pat1 ("https://github.com/".data ++ X) = tailMatch X := rfl

theorem extract_via_pat1 (url : String) (X g1 g2 : List Char)
    (hu : pyRstripSlash (pyStrip url.data) = "https://github.com/".data ++ X)
    (ht : tailMatch X = some (g1, g2)) :
    extract_repo_info_from_url url = (⟨g1⟩, ⟨g2⟩) := by
  have htp : tryPatterns ("https://github.com/".data ++ X) = some (g1, g2) := by
    unfold tryPatterns
    rw [pat1_github, ht]
    rfl
  simp only [extract_repo_info_from_url]
  rw [hu, htp]

/-- Claim C4: for every owner `A` and repository name `B` (nonempty,
slash-free, `B` not ending in whitespace and not carrying a spurious
`.git` suffix), the URL parser maps `https://github.com/A/B` and its
`.git`-suffixed and trailing-slash variants to `(A, B)`; and the parser is
a total function that degrades to an `"unknown"` owner whenever no URL
regex matches and the `urlparse` fallback finds fewer than two path
segments. -/
theorem claim_C4 :
    (∀ A B : String, A.data ≠ [] → B.data ≠ [] →
       (∀ c ∈ A.data, c ≠ '/') → (∀ c ∈ B.data, c ≠ '/') →
       isPySpace (B.data.getLastD '/') = false →
       stripGitTail B.data = B.data →
       (extract_repo_info_from_url ("https://github.com/" ++ A ++ "/" ++ B) = (A, B)
        ∧ extract_repo_info_from_url ("https://github.com/" ++ A ++ "/" ++ B ++ ".git") = (A, B)
        ∧ extract_repo_info_from_url ("https://github.com/" ++ A ++ "/" ++ B ++ "/") = (A, B)))
    ∧ (∀ s : String,
        tryPatterns (pyRstripSlash (pyStrip s.data)) = none →
        ((splitOnChar '/' (urlPath (pyRstripSlash (pyStrip s.data)))).filter
            (fun p => p ≠ [])).length < 2 →
        (extract_repo_info_from_url s).1 = "unknown") := by
  constructor
  · intro A B hA hB hAs hBs hBsp hgit
    obtain ⟨a0⟩ := A
    obtain ⟨b0⟩ := B
    simp only at hA hB hAs hBs hBsp hgit
    have hBlast : ∀ c, b0.reverse.head? = some c → (isPySpace c = false ∧ c ≠ '/') := by
      intro c hc
      cases hrev : b0.reverse with
      | nil => rw [hrev] at hc; cases hc
      | cons b u =>
        rw [hrev] at hc
        injection hc with hc
        subst hc
        have hmem : b ∈ b0 := List.mem_reverse.mp (hrev ▸ List.mem_cons_self b u)
        constructor
        · have hld : b0.getLastD '/' = b := by
            rw [List.getLastD_eq_getLast? '/' b0, ← List.head?_reverse, hrev]
            rfl
          rw [← hld]
          exact hBsp
        · exact hBs b hmem
    have hdata1 : (("https://github.com/" : String) ++ ⟨a0⟩ ++ "/" ++ ⟨b0⟩).data
        = "https://github.com/".data ++ (a0 ++ '/' :: b0) := by
      simp [String.data_append, List.append_assoc,
        show ((⟨a0⟩ : String)).data = a0 from rfl, show ((⟨b0⟩ : String)).data = b0 from rfl,
        show ("/" : String).data = ['/'] from rfl]
    have hP1 : "https://github.com/".data ++ (a0 ++ '/' :: b0)
        = ("https://github.com/".data ++ a0 ++ ['/']) ++ b0 := by
      simp [List.append_assoc]
    have hhead : ∀ X : List Char,
        ∀ c, ("https://github.com/".data ++ X).head? = some c → isPySpace c = false := by
      intro X c hc
      have h0 : ("https://github.com/".data ++ X).head? = some 'h' := rfl
      rw [h0] at hc
      injection hc with hc
      subst hc
      decide
    refine ⟨?_, ?_, ?_⟩
    · apply extract_via_pat1 _ (a0 ++ '/' :: b0) a0 b0
      · rw [hdata1]
        apply preprocess_noop
        · exact hhead _
        · intro c hc
          rw [hP1, head?_reverse_append _ b0 hB] at hc
          exact hBlast c hc
      · exact tailMatch_plain a0 b0 hA hAs hB hBs hgit
    · apply extract_via_pat1 _ (a0 ++ '/' :: (b0 ++ ".git".data)) a0 b0
      · have hdata2 : (("https://github.com/" : String) ++ ⟨a0⟩ ++ "/" ++ ⟨b0⟩ ++ ".git").data
            = "https://github.com/".data ++ (a0 ++ '/' :: (b0 ++ ".git".data)) := by
          simp [String.data_append, List.append_assoc,
            show ((⟨a0⟩ : String)).data = a0 from rfl, show ((⟨b0⟩ : String)).data = b0 from rfl,
            show ("/" : String).data = ['/'] from rfl,
            show (".git" : String).data = ['.', 'g', 'i', 't'] from rfl]
        rw [hdata2]
        apply preprocess_noop
        · exact hhead _
        · intro c hc
          have hP2 : "https://github.com/".data ++ (a0 ++ '/' :: (b0 ++ ".git".data))
              = ("https://github.com/".data ++ a0 ++ '/' :: b0) ++ ".git".data := by
            simp [List.append_assoc]
          rw [hP2, head?_reverse_append _ ".git".data (by decide)] at hc
          have hct : c = 't' := by
            have h2 : ".git".data.reverse.head? = some 't' := rfl
            rw [h2] at hc
            injection hc with hc
            exact hc.symm
          subst hct
          exact ⟨by decide, by decide⟩
      · exact tailMatch_git a0 b0 hA hAs hB hBs
    · apply extract_via_pat1 _ (a0 ++ '/' :: b0) a0 b0
      · have hdata3 : (("https://github.com/" : String) ++ ⟨a0⟩ ++ "/" ++ ⟨b0⟩ ++ "/").data
            = ("https://github.com/".data ++ (a0 ++ '/' :: b0)) ++ ['/'] := by
          simp [String.data_append, List.append_assoc,
            show ((⟨a0⟩ : String)).data = a0 from rfl, show ((⟨b0⟩ : String)).data = b0 from rfl,
            show ("/" : String).data = ['/'] from rfl]
        rw [hdata3]
        have hstrip : pyStrip (("https://github.com/".data ++ (a0 ++ '/' :: b0)) ++ ['/'])
            = ("https://github.com/".data ++ (a0 ++ '/' :: b0)) ++ ['/'] := by
          apply pyStrip_eq
          · intro c hc
            rw [List.append_assoc] at hc
            exact hhead _ c hc
          · intro c hc
            rw [head?_reverse_append _ ['/'] (by decide)] at hc
            injection hc with hc
            subst hc
            decide
        rw [hstrip]
        apply pyRstripSlash_append_slash
        intro c hc
        rw [hP1, head?_reverse_append _ b0 hB] at hc
        exact (hBlast c hc).2
      · exact tailMatch_plain a0 b0 hA hAs hB hBs hgit
  · intro s h1 h2
    simp only [extract_repo_info_from_url]
    rw [h1]
    rw [if_neg (by omega)]

/-- Witness for C4: a concrete owner/repo pair through all three variants,
and the degradation to `"unknown"` on the empty string. -/
theorem claim_C4_witness :
    (extract_repo_info_from_url "https://github.com/octo/hello" = ("octo", "hello")
     ∧ extract_repo_info_from_url "https://github.com/octo/hello.git" = ("octo", "hello")
     ∧ extract_repo_info_from_url "https://github.com/octo/hello/" = ("octo", "hello"))
    ∧ (extract_repo_info_from_url "").1 = "unknown" :=
  ⟨claim_C4.1 "octo" "hello" (by decide) (by decide) (by decide) (by decide) (by decide)
      (by decide),
   claim_C4.2 "" (by decide) (by decide)⟩

end Cmdb
